import Mathlib

/-!
Verification of the batch audio-processing engine
(`src/services/audioProcessor.ts`, `src/utils/workerPool.ts`).

Samples are modelled as rationals: every operation the quantizer performs on
a float sample (clamp to [-1,1], multiply by 32768 / 32767, truncate toward
zero) is exact in IEEE arithmetic for float32 inputs, so the rational model
computes the same int16 values bit for bit.
-/

/-- Truncation toward zero of a rational, as JavaScript coerces a number into
an `Int16Array` slot (`ToInt16` truncates toward zero; all values produced by
`convertBuffer` lie inside the int16 range, so the modular reduction step of
`ToInt16` is the identity and is not modelled). -/
def jsTrunc (q : ℚ) : ℤ :=
  if q < 0 then -(⌊-q⌋) else ⌊q⌋

/-- One step of the quantizer loop body of `convertBuffer`
(src/services/audioProcessor.ts lines 61-64):
`s = Math.max(-1, Math.min(1, x)); int16[i] = s < 0 ? s * 0x8000 : s * 0x7FFF`. -/
def convertSample (x : ℚ) : ℤ :=
  let s := max (-1) (min 1 x)
  if s < 0 then jsTrunc (s * 32768) else jsTrunc (s * 32767)

/-- Function `convertBuffer` (src/services/audioProcessor.ts lines 58-66): the loop
over the input samples, producing one int16 per float sample. -/
def convertBuffer : List ℚ → List ℤ
  | [] => []
  | x :: xs =>
      (let s := max (-1) (min 1 x)
       if s < 0 then jsTrunc (s * 32768) else jsTrunc (s * 32767)) :: convertBuffer xs

/-- The Sample Quantizer as the spec words it (spec.md section 4.3): clamp each
sample to [-1,1] before scaling; scale negative values by 32768 and
non-negative values by 32767, truncating to integer. -/
def quantizeSpec (x : ℚ) : ℤ :=
  let c := max (-1) (min 1 x)
  if c < 0 then jsTrunc (c * 32768) else jsTrunc (c * 32767)

/-- Modelled from the spec: the int16 → float decoder used by the spec's
quantizer round-trip property (spec.md section 8).  The repository contains
no decoding direction, so it is taken from the spec's asymmetric scaling:
a negative int16 decodes by 1/32768, a non-negative one by 1/32767. -/
def decodeSample (n : ℤ) : ℚ :=
  if n < 0 then (n : ℚ) / 32768 else (n : ℚ) / 32767

-- Basic facts about `jsTrunc`.

lemma jsTrunc_of_nonneg {q : ℚ} (h : 0 ≤ q) : jsTrunc q = ⌊q⌋ := by
  simp [jsTrunc, not_lt.mpr h]

lemma jsTrunc_of_neg {q : ℚ} (h : q < 0) : jsTrunc q = -(⌊-q⌋) := by
  simp [jsTrunc, h]

lemma jsTrunc_intCast (n : ℤ) : jsTrunc (n : ℚ) = n := by
  rcases lt_or_le (n : ℚ) 0 with h | h
  · rw [jsTrunc_of_neg h]
    rw [show (-(n : ℚ)) = ((-n : ℤ) : ℚ) by push_cast; ring, Int.floor_intCast]
    ring
  · rw [jsTrunc_of_nonneg h, Int.floor_intCast]

lemma convertSample_nonneg_case {x : ℚ} (h0 : 0 ≤ x) (h1 : x ≤ 1) :
    convertSample x = ⌊x * 32767⌋ := by
  have hmin : min 1 x = x := min_eq_right h1
  have hmax : max (-1) x = x := max_eq_right (by linarith)
  have hs : ¬ (x < 0) := not_lt.mpr h0
  simp only [convertSample, hmin, hmax, if_neg hs]
  exact jsTrunc_of_nonneg (by positivity)

lemma convertSample_neg_case {x : ℚ} (h0 : x < 0) (h1 : -1 ≤ x) :
    convertSample x = jsTrunc (x * 32768) := by
  have hmin : min 1 x = x := min_eq_right (by linarith)
  have hmax : max (-1) x = x := max_eq_right h1
  simp only [convertSample, hmin, hmax, if_pos h0]

lemma quantizeSpec_eq_convertSample (x : ℚ) : quantizeSpec x = convertSample x := rfl

/-- C7: the Sample Quantizer first clamps each input sample to [-1,1], then
scales negative values by 32768 and non-negative values by 32767, truncating
toward zero, and the int16 output always lies in [-32768, 32767]; the loop of
`convertBuffer` is the per-sample map of this pure stateless operation, so
identical input yields identical output. -/
theorem convertBuffer_clamp_scale_trunc :
    (∀ l : List ℚ, convertBuffer l = l.map quantizeSpec) ∧
    (∀ x : ℚ, quantizeSpec x = convertSample x ∧
      -32768 ≤ quantizeSpec x ∧ quantizeSpec x ≤ 32767) := by
  constructor
  · intro l
    induction l with
    | nil => rfl
    | cons x xs ih => rw [convertBuffer, List.map, ih]; rfl
  · intro x
    refine ⟨rfl, ?_, ?_⟩ <;>
    · have h1 : (-1 : ℚ) ≤ max (-1) (min 1 x) := le_max_left _ _
      have h2 : max (-1) (min 1 x) ≤ 1 :=
        max_le (by norm_num) (min_le_left _ _)
      set c := max (-1) (min 1 x) with hc
      unfold quantizeSpec
      rw [← hc]
      by_cases hneg : c < 0
      · rw [if_pos hneg, jsTrunc_of_neg (by nlinarith)]
        have hfl0 : 0 ≤ ⌊-(c * 32768)⌋ := Int.floor_nonneg.mpr (by nlinarith)
        have hfl1 : ⌊-(c * 32768)⌋ ≤ 32768 := by
          have : -(c * 32768) ≤ ((32768 : ℤ) : ℚ) := by push_cast; nlinarith
          calc ⌊-(c * 32768)⌋ ≤ ⌊((32768 : ℤ) : ℚ)⌋ := Int.floor_le_floor this
            _ = 32768 := Int.floor_intCast _
        omega
      · rw [if_neg hneg]
        push_neg at hneg
        rw [jsTrunc_of_nonneg (by positivity)]
        have hfl0 : 0 ≤ ⌊c * 32767⌋ := Int.floor_nonneg.mpr (by positivity)
        have hfl1 : ⌊c * 32767⌋ ≤ 32767 := by
          have : c * 32767 ≤ ((32767 : ℤ) : ℚ) := by push_cast; nlinarith
          calc ⌊c * 32767⌋ ≤ ⌊((32767 : ℤ) : ℚ)⌋ := Int.floor_le_floor this
            _ = 32767 := Int.floor_intCast _
        omega

/-- C6: the quantizer is idempotent after one application: for any sample `s`
in [-1,1], decoding the produced int16 back to a sample (spec-modelled
decoder) and re-quantizing yields the same int16 as the first quantization. -/
theorem quantizer_roundtrip_idempotent (x : ℚ) (h0 : -1 ≤ x) (h1 : x ≤ 1) :
    convertSample (decodeSample (convertSample x)) = convertSample x := by
  rcases le_or_lt 0 x with hx | hx
  · -- non-negative sample: n = floor (x * 32767) with 0 ≤ n ≤ 32767
    rw [convertSample_nonneg_case hx h1]
    set n := ⌊x * 32767⌋ with hn
    have hn0 : 0 ≤ n := Int.floor_nonneg.mpr (by positivity)
    have hn1 : n ≤ 32767 := by
      have : x * 32767 ≤ ((32767 : ℤ) : ℚ) := by push_cast; nlinarith
      calc n ≤ ⌊((32767 : ℤ) : ℚ)⌋ := Int.floor_le_floor this
        _ = 32767 := Int.floor_intCast _
    have hdec : decodeSample n = (n : ℚ) / 32767 := by
      simp [decodeSample, not_lt.mpr hn0]
    rw [hdec, convertSample_nonneg_case (by positivity)
      (by rw [div_le_one (by norm_num)]; exact_mod_cast hn1)]
    rw [div_mul_cancel₀ _ (by norm_num : (32767 : ℚ) ≠ 0), Int.floor_intCast]
  · -- negative sample: n = jsTrunc (x * 32768) with -32768 ≤ n ≤ 0
    rw [convertSample_neg_case hx h0]
    rw [jsTrunc_of_neg (by nlinarith)]
    set m := ⌊-(x * 32768)⌋ with hm
    have hm0 : 0 ≤ m := Int.floor_nonneg.mpr (by nlinarith)
    have hm1 : m ≤ 32768 := by
      have : -(x * 32768) ≤ ((32768 : ℤ) : ℚ) := by push_cast; nlinarith
      calc m ≤ ⌊((32768 : ℤ) : ℚ)⌋ := Int.floor_le_floor this
        _ = 32768 := Int.floor_intCast _
    rcases eq_or_lt_of_le hm0 with hz | hpos
    · -- the quantized value is 0
      rw [← hz]
      have hdec : decodeSample (-(0 : ℤ)) = 0 := by norm_num [decodeSample]
      rw [hdec, convertSample_nonneg_case le_rfl (by norm_num)]
      norm_num
    · -- the quantized value -m is strictly negative
      have hneg : ((-m : ℤ) : ℚ) < 0 := by exact_mod_cast neg_neg_of_pos hpos
      have hdec : decodeSample (-m) = ((-m : ℤ) : ℚ) / 32768 := by
        simp only [decodeSample, if_pos (show (-m : ℤ) < 0 by omega)]
      rw [hdec, convertSample_neg_case (div_neg_of_neg_of_pos hneg (by norm_num))
        (by rw [le_div_iff₀ (by norm_num : (0:ℚ) < 32768)]; push_cast
            linarith [show ((m : ℚ)) ≤ 32768 from by exact_mod_cast hm1])]
      rw [div_mul_cancel₀ _ (by norm_num : (32768 : ℚ) ≠ 0), jsTrunc_intCast]

/-- Witness for C6 at the concrete sample 3/10. -/
theorem quantizer_roundtrip_idempotent_witness :
    ((-1 : ℚ) ≤ 3/10 ∧ (3/10 : ℚ) ≤ 1) ∧
    convertSample (decodeSample (convertSample (3/10))) = convertSample (3/10) :=
  ⟨⟨by norm_num, by norm_num⟩,
    quantizer_roundtrip_idempotent (3/10) (by norm_num) (by norm_num)⟩

/-!
Pitch/Speed Resolver (src/services/audioProcessor.ts lines 131-132 and 178).
The base-2 logarithm is passed as a parameter so that the definitions stay
computable; the theorems instantiate it with `Real.logb 2`
(the mathematical function computed by `Math.log2`).
-/

/-- Line 131: `implicitPitchChange = 12 * Math.log2(playbackRate)`. -/
def implicitPitchChange (log2 : ℝ → ℝ) (playbackRate : ℝ) : ℝ :=
  12 * log2 playbackRate

/-- Line 132: `compensationPitch = pitchShift - implicitPitchChange`. -/
def compensationPitch (log2 : ℝ → ℝ) (pitchShift playbackRate : ℝ) : ℝ :=
  pitchShift - implicitPitchChange log2 playbackRate

/-- Line 178: `source.detune.value = compensationPitch * 100` — the detune
parameter in cents actually applied to the render source. -/
def detuneValue (log2 : ℝ → ℝ) (pitchShift playbackRate : ℝ) : ℝ :=
  compensationPitch log2 pitchShift playbackRate * 100

lemma logb_six_fifths_lt : Real.logb 2 (6/5) < 5/19 := by
  have hpow : ((6 : ℝ)/5)^(19 : ℕ) < 2^(5 : ℕ) := by norm_num
  have h := Real.logb_lt_logb (b := 2) (by norm_num) (by positivity) hpow
  rw [Real.logb_pow, Real.logb_pow, Real.logb_self_eq_one (by norm_num)] at h
  push_cast at h
  linarith

lemma lt_logb_six_fifths : (111 : ℝ)/422 < Real.logb 2 (6/5) := by
  have hpow : (2 : ℝ)^(111 : ℕ) < ((6 : ℝ)/5)^(422 : ℕ) := by norm_num
  have h := Real.logb_lt_logb (b := 2) (by norm_num) (by positivity) hpow
  rw [Real.logb_pow, Real.logb_pow, Real.logb_self_eq_one (by norm_num)] at h
  push_cast at h
  linarith

/-- C5 counterexample: at `pitchShiftSemitones = 2`, `speedMultiplier = 1.2`,
the detune actually computed by the Resolver is about -115.6 cents, not
within 0.1 of the spec's claimed 10.3 cents. -/
theorem resolver_cents_example_cex :
    ¬ |detuneValue (Real.logb 2) 2 (6/5) - 10.3| ≤ 0.1 := by
  have h1 := logb_six_fifths_lt
  have h2 := lt_logb_six_fifths
  rw [not_le, abs_sub_comm, lt_abs]
  left
  unfold detuneValue compensationPitch implicitPitchChange
  norm_num
  linarith

/-- C5 amended: for every pitchShiftSemitones and speedMultiplier, the
Resolver's pitch correction applied as the detune parameter equals
`(pitchShiftSemitones - 12*log2(speedMultiplier)) * 100` cents, and for
`pitchShiftSemitones = 2`, `speedMultiplier = 1.2` this correction is
approximately -115.7 cents (within 0.1): the implicit pitch shift is
`12*log2(1.2) ≈ 3.156` semitones, not the 1.897 the spec computes. -/
theorem resolver_detune_formula_and_value :
    (∀ pitchShift playbackRate : ℝ,
      detuneValue (Real.logb 2) pitchShift playbackRate =
        (pitchShift - 12 * Real.logb 2 playbackRate) * 100) ∧
    |detuneValue (Real.logb 2) 2 (6/5) - (-115.7)| ≤ 0.1 := by
  constructor
  · intro p r
    unfold detuneValue compensationPitch implicitPitchChange
    ring
  · have h1 := logb_six_fifths_lt
    have h2 := lt_logb_six_fifths
    rw [abs_le]
    unfold detuneValue compensationPitch implicitPitchChange
    norm_num
    constructor <;> linarith

/-!
Silence Trimmer `smartTrim` (src/services/audioProcessor.ts lines 10-55).
An `AudioBuffer` is modelled by its per-channel sample data plus its sample
rate; `length` is the channel data length (all channels of a platform
`AudioBuffer` share one length, the first channel's length is used).
-/

/-- Multichannel sample buffer. -/
structure AudioBufferM where
  channels : List (List ℚ)
  sampleRate : ℚ
deriving DecidableEq

/-- Property `buffer.length`: the per-channel sample count. -/
def AudioBufferM.length (b : AudioBufferM) : Nat := (b.channels.headD []).length

/-- Line 11: the `-50dB equivalent` threshold constant. -/
def trimThreshold : ℚ := 0.00316

/-- The inner per-index loop of `smartTrim` (lines 19-23 and 32-36):
the maximum of `Math.abs(buffer.getChannelData(c)[i])` over all channels,
accumulated from 0. -/
def maxAbsAt (b : AudioBufferM) (i : Nat) : ℚ :=
  b.channels.foldl (fun m ch => max m |ch.getD i 0|) 0

/-- Forward scan (lines 18-28): step 32 samples; on the first index whose
channel maximum exceeds the threshold, `start = Math.max(0, i - 512)`
(natural subtraction saturates at 0 exactly like `Math.max`); if the loop
runs out, `start` keeps its initial value 0. -/
def scanForward (b : AudioBufferM) (i : Nat) : Nat :=
  if _h : i < b.length then
    if trimThreshold < maxAbsAt b i then i - 512
    else scanForward b (i + 32)
  else 0
termination_by b.length - i
decreasing_by omega

/-- Backward scan body (lines 31-41): from index `i` downward in steps of 32
while `i >= start`; on the first index whose channel maximum exceeds the
threshold, `end = Math.min(length, i + 512)`; if the loop runs out, `end`
keeps its initial value `length`. -/
def scanBackward (b : AudioBufferM) (start i : Nat) : Nat :=
  if trimThreshold < maxAbsAt b i then min b.length (i + 512)
  else if start + 32 ≤ i then scanBackward b start (i - 32)
  else b.length
termination_by i
decreasing_by omega

/-- Function `smartTrim` (lines 10-55): compute the scan range; if the resulting
length is non-positive or not shorter than the original, return the buffer
unchanged; otherwise copy the sub-range `[start, end)` of every channel. -/
def smartTrim (b : AudioBufferM) : AudioBufferM :=
  let start := scanForward b 0
  let e := if b.length = 0 then b.length
           else if start ≤ b.length - 1 then scanBackward b start (b.length - 1)
           else b.length
  if (e : ℤ) - (start : ℤ) ≤ 0 ∨ (b.length : ℤ) ≤ (e : ℤ) - (start : ℤ) then b
  else { channels := b.channels.map (fun ch => (ch.drop start).take (e - start)),
         sampleRate := b.sampleRate }

/-- The scan range actually computed by `smartTrim` for a buffer. -/
def trimRange (b : AudioBufferM) : Nat × Nat :=
  let start := scanForward b 0
  let e := if b.length = 0 then b.length
           else if start ≤ b.length - 1 then scanBackward b start (b.length - 1)
           else b.length
  (start, e)

lemma smartTrim_eq_of_degenerate (b : AudioBufferM)
    (h : ((trimRange b).2 : ℤ) - ((trimRange b).1 : ℤ) ≤ 0 ∨
         (b.length : ℤ) ≤ ((trimRange b).2 : ℤ) - ((trimRange b).1 : ℤ)) :
    smartTrim b = b := by
  unfold smartTrim
  unfold trimRange at h
  simp only at h ⊢
  exact if_pos h

lemma foldl_max_le {f : List ℚ → ℚ} {l : List (List ℚ)} {m t : ℚ}
    (hm : m ≤ t) (h : ∀ ch ∈ l, f ch ≤ t) :
    l.foldl (fun acc ch => max acc (f ch)) m ≤ t := by
  induction l generalizing m with
  | nil => simpa using hm
  | cons c cs ih =>
      simp only [List.foldl_cons]
      exact ih (max_le hm (h c (by simp))) (fun ch hch => h ch (by simp [hch]))

lemma le_foldl_max {f : List ℚ → ℚ} {l : List (List ℚ)} {m : ℚ} :
    ∀ ch ∈ l, f ch ≤ l.foldl (fun acc ch => max acc (f ch)) m := by
  have hmono : ∀ (l : List (List ℚ)) (m : ℚ),
      m ≤ l.foldl (fun acc ch => max acc (f ch)) m := by
    intro l
    induction l with
    | nil => intro m; simp
    | cons c cs ih =>
        intro m
        simp only [List.foldl_cons]
        exact le_trans (le_max_left _ _) (ih (max m (f c)))
  intro ch hch
  induction l generalizing m with
  | nil => cases hch
  | cons c cs ih =>
      simp only [List.foldl_cons]
      rcases List.mem_cons.mp hch with rfl | hmem
      · exact le_trans (le_max_right m (f ch)) (hmono cs _)
      · exact ih hmem

lemma getD_le_of_all {ch : List ℚ} {i : Nat} {t : ℚ} (ht : 0 ≤ t)
    (h : ∀ x ∈ ch, |x| ≤ t) : |ch.getD i 0| ≤ t := by
  by_cases hi : i < ch.length
  · rw [List.getD_eq_getElem ch 0 hi]
    exact h _ (ch.getElem_mem hi)
  · rw [List.getD_eq_default ch 0 (by omega)]
    simpa using ht

lemma maxAbsAt_le_of_silent {b : AudioBufferM} {i : Nat}
    (h : ∀ ch ∈ b.channels, ∀ x ∈ ch, |x| ≤ trimThreshold) :
    maxAbsAt b i ≤ trimThreshold := by
  unfold maxAbsAt
  exact foldl_max_le (by norm_num [trimThreshold])
    (fun ch hch => getD_le_of_all (by norm_num [trimThreshold]) (h ch hch))

lemma lt_maxAbsAt_of_head {b : AudioBufferM} {i : Nat} (hi : i < b.length)
    (h : ∀ ch ∈ b.channels, ∀ x ∈ ch, trimThreshold < |x|) :
    trimThreshold < maxAbsAt b i := by
  rcases hch : b.channels with _ | ⟨c, cs⟩
  · exfalso
    unfold AudioBufferM.length at hi
    rw [hch] at hi
    simp at hi
  · have hcl : i < c.length := by
      unfold AudioBufferM.length at hi
      rw [hch] at hi
      simpa using hi
    have hmem : c ∈ b.channels := by rw [hch]; simp
    have helem : trimThreshold < |c.getD i 0| := by
      rw [List.getD_eq_getElem c 0 hcl]
      exact h c hmem _ (c.getElem_mem hcl)
    have hfold := le_foldl_max (f := fun ch => |ch.getD i 0|)
      (l := b.channels) (m := 0) c hmem
    unfold maxAbsAt
    exact lt_of_lt_of_le helem hfold

lemma scanForward_silent {b : AudioBufferM}
    (h : ∀ ch ∈ b.channels, ∀ x ∈ ch, |x| ≤ trimThreshold) :
    ∀ n i, b.length - i ≤ n → scanForward b i = 0 := by
  intro n
  induction n with
  | zero =>
      intro i hi
      rw [scanForward.eq_def, dif_neg (by omega)]
  | succ n ih =>
      intro i hi
      rw [scanForward.eq_def]
      by_cases hlt : i < b.length
      · rw [dif_pos hlt, if_neg (not_lt.mpr (maxAbsAt_le_of_silent h))]
        exact ih (i + 32) (by omega)
      · rw [dif_neg hlt]

lemma scanBackward_silent {b : AudioBufferM} (start : Nat)
    (h : ∀ ch ∈ b.channels, ∀ x ∈ ch, |x| ≤ trimThreshold) :
    ∀ i, scanBackward b start i = b.length := by
  intro i
  induction i using Nat.strong_induction_on with
  | _ i ih =>
      rw [scanBackward.eq_def,
        if_neg (not_lt.mpr (maxAbsAt_le_of_silent h))]
      by_cases hge : start + 32 ≤ i
      · rw [if_pos hge]
        exact ih (i - 32) (by omega)
      · rw [if_neg hge]

/-- C8: the Silence Trimmer never yields an empty or inverted range: whenever
the computed range is degenerate (`end <= start` or trimmed length equal to
the original) the original buffer is returned unchanged; in particular a
buffer whose every sample is above the threshold and a silence-only buffer
(every sample at or below the threshold) both come back unchanged. -/
theorem smartTrim_no_degenerate_range (b : AudioBufferM) :
    ((trimRange b).2 ≤ (trimRange b).1 ∨
      (trimRange b).2 - (trimRange b).1 = b.length → smartTrim b = b) ∧
    ((∀ ch ∈ b.channels, ∀ x ∈ ch, trimThreshold < |x|) → smartTrim b = b) ∧
    ((∀ ch ∈ b.channels, ∀ x ∈ ch, |x| ≤ trimThreshold) → smartTrim b = b) := by
  refine ⟨?_, ?_, ?_⟩
  · intro h
    apply smartTrim_eq_of_degenerate
    rcases h with h | h
    · left; omega
    · rcases le_or_lt (trimRange b).2 (trimRange b).1 with hle | hlt
      · left; omega
      · right; omega
  · intro h
    rcases Nat.eq_zero_or_pos b.length with hz | hpos
    · apply smartTrim_eq_of_degenerate
      left
      have hs : scanForward b 0 = 0 := by
        rw [scanForward.eq_def, dif_neg (by omega)]
      unfold trimRange
      simp only [hz, hs]
      norm_num
    · have hhit0 : trimThreshold < maxAbsAt b 0 := lt_maxAbsAt_of_head hpos h
      have hs : scanForward b 0 = 0 := by
        rw [scanForward.eq_def, dif_pos (by omega), if_pos hhit0]
      have hhitE : trimThreshold < maxAbsAt b (b.length - 1) :=
        lt_maxAbsAt_of_head (by omega) h
      have he : scanBackward b 0 (b.length - 1) = b.length := by
        rw [scanBackward.eq_def, if_pos hhitE]
        omega
      apply smartTrim_eq_of_degenerate
      unfold trimRange
      simp only [hs]
      rw [if_neg (by omega), if_pos (by omega), he]
      right
      omega
  · intro h
    have hs : scanForward b 0 = 0 := scanForward_silent h b.length 0 (by omega)
    apply smartTrim_eq_of_degenerate
    unfold trimRange
    rcases Nat.eq_zero_or_pos b.length with hz | hpos
    · simp only [hz, hs]
      norm_num
    · simp only [hs]
      rw [if_neg (by omega), if_pos (by omega),
        scanBackward_silent 0 h (b.length - 1)]
      right
      omega

/-- Witness for C8: a one-channel buffer whose two samples are both above the
threshold is returned unchanged. -/
theorem smartTrim_no_degenerate_range_witness :
    (∀ ch ∈ (AudioBufferM.mk [[1/2, 1/2]] 44100).channels, ∀ x ∈ ch,
      trimThreshold < |x|) ∧
    smartTrim (AudioBufferM.mk [[1/2, 1/2]] 44100) =
      AudioBufferM.mk [[1/2, 1/2]] 44100 := by
  have hab : ∀ ch ∈ (AudioBufferM.mk [[1/2, 1/2]] 44100).channels, ∀ x ∈ ch,
      trimThreshold < |x| := by
    intro ch hch x hx
    simp only [List.mem_cons, List.not_mem_nil, or_false] at hch
    subst hch
    simp only [List.mem_cons, List.not_mem_nil, or_false] at hx
    rcases hx with rfl | rfl <;>
      · rw [abs_of_pos (by norm_num)]
        norm_num [trimThreshold]
  exact ⟨hab, (smartTrim_no_degenerate_range _).2.1 hab⟩

/-!
Batch Scheduler (`BatchProcessor`, src/services/audioProcessor.ts lines
68-241).  The engine is single-threaded with asynchronous completions: the
`scheduler` while-loop (lines 91-108) runs atomically, and each item's
`.finally` callback (decrement, completion check, refill) runs atomically
when that item's pipeline settles.  A batch run is therefore modelled as a
transition system: the initial state is `start()` (constructor state plus
one scheduler pass), and each step is the settlement of one in-flight item,
in an arbitrary order.  The per-item pipeline outcome (success, or the
caught exception of line 213) is abstracted by an outcome function.
-/

/-- A queued work item (`AudioFile` in src/types.ts): opaque id plus
display name (the remaining fields play no part in the scheduler). -/
structure AudioFileM where
  id : String
  name : String
deriving DecidableEq

/-- Result of one `processSingleFile` run: success, or the message of the
exception caught at line 213. -/
inductive OutcomeM where
  | ok : OutcomeM
  | err : String → OutcomeM

/-- Structure `ConfigOptions` (src/types.ts lines 11-17). -/
structure ConfigOptionsM where
  pitchShift : ℚ
  playbackRate : ℚ
  soundOptimization : Bool
  concurrency : Nat
  zipFileName : String

/-- Structure `ProcessReport` counts (src/types.ts lines 25-30; `timeElapsed` is wall
clock time and is not modelled). -/
structure ProcessReportM where
  totalFiles : Nat
  successCount : Nat
  errorCount : Nat
deriving DecidableEq

/-- Scheduler state: pending queue, in-flight items, accumulated results and
errors, the terminal statuses emitted through `onUpdate`, and the report
passed to `onComplete` (with an invocation counter for `onComplete`). -/
structure SchedState where
  queue : List AudioFileM
  active : List AudioFileM
  results : List String
  errors : List (String × String)
  statuses : List (String × String)
  report : Option ProcessReportM
  finalizeCount : Nat
deriving DecidableEq

/-- Line 7: `const MAX_ACTIVE_RENDER_CONTEXTS = 6`. -/
def MAX_ACTIVE_RENDER_CONTEXTS : Nat := 6

/-- The `while` loop of `scheduler()` (lines 93-107): while there is room
below the render ceiling and files are waiting, shift one file off the queue
and start it (returns the final queue and active list). -/
def schedulerLoop : List AudioFileM → List AudioFileM →
    List AudioFileM × List AudioFileM
  | [], act => ([], act)
  | f :: rest, act =>
      if act.length < MAX_ACTIVE_RENDER_CONTEXTS then
        schedulerLoop rest (act ++ [f])
      else (f :: rest, act)

/-- One `scheduler()` call applied to a state. -/
def schedulerPass (s : SchedState) : SchedState :=
  { s with queue := (schedulerLoop s.queue s.active).1,
           active := (schedulerLoop s.queue s.active).2 }

/-- Line 206 `name.replace` with the extension pattern: strip one trailing extension
(a dot followed by at least one character that is neither a dot nor a
slash). -/
def stripExt (n : String) : String :=
  let r := n.toList.reverse
  let ext := r.takeWhile (fun c => c ≠ '.' ∧ c ≠ '/')
  match r.drop ext.length with
  | '.' :: rs => if ext = [] then n else String.mk rs.reverse
  | _ => n

/-- The output filename of a successful item (line 206). -/
def outputFileName (name : String) : String := stripExt name ++ ".mp3"

/-- Constructor state (lines 75-83) — `start()` has not yet run. -/
def initState (files : List AudioFileM) : SchedState :=
  { queue := files, active := [], results := [], errors := [],
    statuses := [], report := none, finalizeCount := 0 }

/-- Method `finalize()` (lines 220-240): builds the report from the accumulated
lists (`totalFiles = queue.length + results.length + errors.length`) and
invokes `onComplete` once. -/
def finalizeStep (s : SchedState) : SchedState :=
  { s with
    report := some
      { totalFiles := s.queue.length + s.results.length + s.errors.length,
        successCount := s.results.length,
        errorCount := s.errors.length },
    finalizeCount := s.finalizeCount + 1 }

/-- First phase of the settlement of item `f`: `processSingleFile` records
the result (line 205) or the caught error (line 215) and emits the terminal
status (line 211 / 216); the `.finally` callback removes `f` from the
in-flight set (the `activeRenderers--` of line 98). -/
def recordOutcome (oc : AudioFileM → OutcomeM) (s : SchedState)
    (f : AudioFileM) : SchedState :=
  match oc f with
  | .ok =>
      { s with active := s.active.erase f,
               results := s.results ++ [outputFileName f.name],
               statuses := s.statuses ++ [(f.id, "completed")] }
  | .err m =>
      { s with active := s.active.erase f,
               errors := s.errors ++ [(f.name, m)],
               statuses := s.statuses ++ [(f.id, "error")] }

/-- Full settlement of one in-flight item: record its outcome, then run the
`.finally` completion check (lines 99-104): finalize when the queue is
drained and nothing is in flight, otherwise run the scheduler again. -/
def completeStep (oc : AudioFileM → OutcomeM) (s : SchedState)
    (f : AudioFileM) : SchedState :=
  if (recordOutcome oc s f).queue = [] ∧ (recordOutcome oc s f).active = []
  then finalizeStep (recordOutcome oc s f)
  else schedulerPass (recordOutcome oc s f)

/-- Reachable states of one batch run: `start()` (line 85) performs a single
scheduler pass over the constructor state, after which in-flight items settle
in an arbitrary order.  The configuration is carried as ambient data: the
scheduler of the source reads none of its fields (its `concurrency` field in
particular is never read; the pitch/speed fields only shape the rendering
maths inside `processSingleFile`, abstracted here by `oc`). -/
inductive Reach (cfg : ConfigOptionsM) (oc : AudioFileM → OutcomeM)
    (files : List AudioFileM) : SchedState → Prop
  | init : Reach cfg oc files (schedulerPass (initState files))
  | step {s : SchedState} {f : AudioFileM} :
      Reach cfg oc files s → f ∈ s.active →
      Reach cfg oc files (completeStep oc s f)

lemma schedulerLoop_active_le (q : List AudioFileM) :
    ∀ act : List AudioFileM, act.length ≤ MAX_ACTIVE_RENDER_CONTEXTS →
      (schedulerLoop q act).2.length ≤ MAX_ACTIVE_RENDER_CONTEXTS := by
  induction q with
  | nil => intro act h; simpa [schedulerLoop] using h
  | cons f rest ih =>
      intro act h
      rw [schedulerLoop]
      by_cases hlt : act.length < MAX_ACTIVE_RENDER_CONTEXTS
      · rw [if_pos hlt]
        exact ih (act ++ [f]) (by simp; omega)
      · rw [if_neg hlt]
        exact h


lemma schedulerLoop_count (q : List AudioFileM) :
    ∀ act : List AudioFileM,
      (schedulerLoop q act).1.length + (schedulerLoop q act).2.length =
        q.length + act.length := by
  induction q with
  | nil => intro act; simp [schedulerLoop]
  | cons f rest ih =>
      intro act
      rw [schedulerLoop]
      by_cases hlt : act.length < MAX_ACTIVE_RENDER_CONTEXTS
      · rw [if_pos hlt]
        have h := ih (act ++ [f])
        simp only [List.length_append, List.length_cons, List.length_nil] at h ⊢
        omega
      · rw [if_neg hlt]

lemma schedulerLoop_queue_nonempty (q : List AudioFileM) :
    ∀ act : List AudioFileM, (schedulerLoop q act).1 ≠ [] →
      MAX_ACTIVE_RENDER_CONTEXTS ≤ (schedulerLoop q act).2.length := by
  induction q with
  | nil => intro act h; simp [schedulerLoop] at h
  | cons f rest ih =>
      intro act h
      rw [schedulerLoop] at h ⊢
      by_cases hlt : act.length < MAX_ACTIVE_RENDER_CONTEXTS
      · rw [if_pos hlt] at h ⊢
        exact ih (act ++ [f]) h
      · rw [if_neg hlt]
        exact Nat.le_of_not_lt hlt

lemma schedulerLoop_active_nonempty (q : List AudioFileM) :
    ∀ act : List AudioFileM, act ≠ [] ∨ q ≠ [] →
      (schedulerLoop q act).2 ≠ [] := by
  induction q with
  | nil =>
      intro act h
      rcases h with h | h
      · simpa [schedulerLoop] using h
      · exact absurd rfl h
  | cons f rest ih =>
      intro act _
      rw [schedulerLoop]
      by_cases hlt : act.length < MAX_ACTIVE_RENDER_CONTEXTS
      · rw [if_pos hlt]
        exact ih (act ++ [f]) (Or.inl (by simp))
      · rw [if_neg hlt]
        show act ≠ []
        intro hc
        apply hlt
        rw [hc]
        norm_num [MAX_ACTIVE_RENDER_CONTEXTS]

/-- The state invariant maintained by every reachable scheduler state. -/
def SchedInv (files : List AudioFileM) (s : SchedState) : Prop :=
  s.active.length ≤ MAX_ACTIVE_RENDER_CONTEXTS ∧
  s.queue.length + s.active.length + s.results.length + s.errors.length =
    files.length ∧
  s.finalizeCount ≤ 1 ∧
  (s.report = none ↔ s.finalizeCount = 0) ∧
  (∀ r, s.report = some r →
    s.queue = [] ∧ s.active = [] ∧
    r.totalFiles = files.length ∧ r.successCount = s.results.length ∧
    r.errorCount = s.errors.length ∧
    r.successCount + r.errorCount = r.totalFiles) ∧
  (s.queue ≠ [] → s.active ≠ []) ∧
  (files ≠ [] → s.active = [] → s.report ≠ none)

lemma schedInv_init (files : List AudioFileM) :
    SchedInv files (schedulerPass (initState files)) := by
  have hle := schedulerLoop_active_le files []
    (by norm_num [MAX_ACTIVE_RENDER_CONTEXTS])
  have hcount := schedulerLoop_count files []
  have hqne := schedulerLoop_queue_nonempty files []
  have hane := schedulerLoop_active_nonempty files []
  unfold SchedInv schedulerPass initState
  dsimp only
  refine ⟨hle, ?_, ?_, ?_, ?_, ?_, ?_⟩
  · simp only [List.length_nil] at hcount ⊢
    omega
  · omega
  · simp
  · intro r hr
    simp at hr
  · intro hq
    intro hc
    have := hqne hq
    rw [hc] at this
    simp [MAX_ACTIVE_RENDER_CONTEXTS] at this
  · intro hne hact
    exact absurd hact (hane (Or.inr hne))

lemma recordOutcome_queue (oc : AudioFileM → OutcomeM) (s : SchedState)
    (f : AudioFileM) : (recordOutcome oc s f).queue = s.queue := by
  unfold recordOutcome
  cases oc f <;> rfl

lemma recordOutcome_active (oc : AudioFileM → OutcomeM) (s : SchedState)
    (f : AudioFileM) : (recordOutcome oc s f).active = s.active.erase f := by
  unfold recordOutcome
  cases oc f <;> rfl

lemma recordOutcome_report (oc : AudioFileM → OutcomeM) (s : SchedState)
    (f : AudioFileM) : (recordOutcome oc s f).report = s.report := by
  unfold recordOutcome
  cases oc f <;> rfl

lemma recordOutcome_finalizeCount (oc : AudioFileM → OutcomeM)
    (s : SchedState) (f : AudioFileM) :
    (recordOutcome oc s f).finalizeCount = s.finalizeCount := by
  unfold recordOutcome
  cases oc f <;> rfl

lemma recordOutcome_tally (oc : AudioFileM → OutcomeM) (s : SchedState)
    (f : AudioFileM) :
    (recordOutcome oc s f).results.length + (recordOutcome oc s f).errors.length
      = s.results.length + s.errors.length + 1 := by
  unfold recordOutcome
  cases oc f <;> simp <;> omega

lemma schedInv_tail (files : List AudioFileM) (s1 : SchedState)
    (hlen : s1.active.length ≤ MAX_ACTIVE_RENDER_CONTEXTS)
    (hcount : s1.queue.length + s1.active.length + s1.results.length +
      s1.errors.length = files.length)
    (hrep : s1.report = none) (hfc : s1.finalizeCount = 0) :
    SchedInv files
      (if s1.queue = [] ∧ s1.active = [] then finalizeStep s1
       else schedulerPass s1) := by
  by_cases hend : s1.queue = [] ∧ s1.active = []
  · rw [if_pos hend]
    obtain ⟨hq, ha⟩ := hend
    unfold SchedInv finalizeStep
    dsimp only
    refine ⟨hlen, hcount, by omega, by simp [hfc], ?_, ?_, ?_⟩
    · intro r hr
      rw [Option.some_inj] at hr
      subst hr
      refine ⟨hq, ha, ?_, rfl, rfl, ?_⟩ <;>
        simp only [hq, ha, List.length_nil] at hcount ⊢ <;> omega
    · intro hqne
      exact absurd hq hqne
    · intro _ _
      simp
  · rw [if_neg hend]
    have hor : s1.active ≠ [] ∨ s1.queue ≠ [] := by tauto
    unfold SchedInv schedulerPass
    dsimp only
    have hcnt := schedulerLoop_count s1.queue s1.active
    refine ⟨schedulerLoop_active_le s1.queue s1.active hlen, by omega,
      by omega, by simp [hrep, hfc], ?_, ?_, ?_⟩
    · intro r hr
      rw [hrep] at hr
      cases hr
    · intro hqne hc
      have := schedulerLoop_queue_nonempty s1.queue s1.active hqne
      rw [hc] at this
      simp [MAX_ACTIVE_RENDER_CONTEXTS] at this
    · intro _ hc
      exact absurd hc (schedulerLoop_active_nonempty s1.queue s1.active hor)

lemma schedInv_step (files : List AudioFileM) (oc : AudioFileM → OutcomeM)
    {s : SchedState} {f : AudioFileM} (hf : f ∈ s.active)
    (hinv : SchedInv files s) : SchedInv files (completeStep oc s f) := by
  obtain ⟨h1, h2, h3, h4, h5, h6, h7⟩ := hinv
  have hrep : s.report = none := by
    cases hr : s.report with
    | none => rfl
    | some r =>
        have ha := (h5 r hr).2.1
        rw [ha] at hf
        cases hf
  have hfc : s.finalizeCount = 0 := h4.mp hrep
  have herase : (s.active.erase f).length = s.active.length - 1 :=
    List.length_erase_of_mem hf
  have hfpos : 0 < s.active.length := List.length_pos.mpr
    (List.ne_nil_of_mem hf)
  unfold completeStep
  apply schedInv_tail
  · rw [recordOutcome_active]
    omega
  · rw [recordOutcome_queue, recordOutcome_active]
    have := recordOutcome_tally oc s f
    omega
  · rw [recordOutcome_report]
    exact hrep
  · rw [recordOutcome_finalizeCount]
    exact hfc

/-- Every reachable state satisfies the invariant. -/
lemma reach_schedInv {cfg : ConfigOptionsM} {oc : AudioFileM → OutcomeM}
    {files : List AudioFileM} {s : SchedState}
    (h : Reach cfg oc files s) : SchedInv files s := by
  induction h with
  | init => exact schedInv_init files
  | step _ hf ih => exact schedInv_step files _ hf ih

/-!  Concrete fixtures for counterexamples and witnesses. -/

def fileA : AudioFileM := { id := "a", name := "A.wav" }

def fileB : AudioFileM := { id := "b", name := "B.wav" }

def fileC : AudioFileM := { id := "c", name := "C.wav" }

def filesABC : List AudioFileM := [fileA, fileB, fileC]

/-- Outcome function: every item succeeds. -/
def ocOk : AudioFileM → OutcomeM := fun _ => OutcomeM.ok

/-- Outcome function: item `b`'s decode throws, everything else succeeds. -/
def ocBFails : AudioFileM → OutcomeM := fun f =>
  if f.id = "b" then OutcomeM.err "decode failed" else OutcomeM.ok

/-- A configuration whose `concurrency` field is 2. -/
def cfgTwo : ConfigOptionsM :=
  { pitchShift := 2, playbackRate := 6/5, soundOptimization := true,
    concurrency := 2, zipFileName := "mix" }

/-- An invalid configuration: non-positive speed multiplier. -/
def cfgNoSpeed : ConfigOptionsM :=
  { pitchShift := 2, playbackRate := 0, soundOptimization := true,
    concurrency := 120, zipFileName := "mix" }

/-- The one-item batch `[fileA]` run to completion. -/
def runA1 : SchedState :=
  completeStep ocOk (schedulerPass (initState [fileA])) fileA

/-- The three-item batch `filesABC` with `fileB` failing, run to
completion in the order A, B, C. -/
def runABC : SchedState :=
  completeStep ocBFails
    (completeStep ocBFails
      (completeStep ocBFails (schedulerPass (initState filesABC)) fileA)
      fileB)
    fileC

/-- C1 counterexample: the scheduler's admission rule compares against the
constant `MAX_ACTIVE_RENDER_CONTEXTS`, not the Configuration's concurrency
field: with `concurrency = 2` and three queued items, `start()` immediately
puts 3 items in flight, exceeding the configured value. -/
theorem scheduler_exceeds_config_concurrency_cex :
    Reach cfgTwo ocOk filesABC (schedulerPass (initState filesABC)) ∧
    cfgTwo.concurrency = 2 ∧
    cfgTwo.concurrency < (schedulerPass (initState filesABC)).active.length :=
  ⟨Reach.init, rfl, by decide⟩

/-- C1 amended: at every point during a batch run, for every Configuration
and every input list, the number of concurrently active render pipelines is
at most the hard-coded ceiling `MAX_ACTIVE_RENDER_CONTEXTS = 6`, under every
order in which in-flight items complete; the Configuration's `concurrency`
field is never consulted. -/
theorem scheduler_active_le_render_ceiling (cfg : ConfigOptionsM)
    (oc : AudioFileM → OutcomeM) (files : List AudioFileM) (s : SchedState)
    (h : Reach cfg oc files s) :
    s.active.length ≤ MAX_ACTIVE_RENDER_CONTEXTS :=
  (reach_schedInv h).1

/-- Witness for the amended C1 at the started three-item batch. -/
theorem scheduler_active_le_render_ceiling_witness :
    Reach cfgTwo ocOk filesABC (schedulerPass (initState filesABC)) ∧
    (schedulerPass (initState filesABC)).active.length ≤
      MAX_ACTIVE_RENDER_CONTEXTS :=
  ⟨Reach.init,
    scheduler_active_le_render_ceiling cfgTwo ocOk filesABC _ Reach.init⟩

/-- C2: whenever the completion observer receives a report, it satisfies
`successCount + errorCount = totalFiles`, and `totalFiles` equals the number
of items originally submitted to the batch. -/
theorem finalize_report_counts_conserved (cfg : ConfigOptionsM)
    (oc : AudioFileM → OutcomeM) (files : List AudioFileM) (s : SchedState)
    (r : ProcessReportM) (h : Reach cfg oc files s)
    (hr : s.report = some r) :
    r.successCount + r.errorCount = r.totalFiles ∧
    r.totalFiles = files.length := by
  obtain ⟨-, -, -, -, h5, -, -⟩ := reach_schedInv h
  obtain ⟨-, -, ht, -, -, hsum⟩ := h5 r hr
  exact ⟨hsum, ht⟩

/-- Witness for C2: the completed one-item batch reports 1 success, 0
errors, 1 total. -/
theorem finalize_report_counts_conserved_witness :
    runA1.report = some { totalFiles := 1, successCount := 1, errorCount := 0 } ∧
    ((1 : Nat) + 0 = 1 ∧ (1 : Nat) = [fileA].length) := by
  have hreach : Reach cfgTwo ocOk [fileA] runA1 :=
    Reach.step Reach.init (by decide)
  have hrep : runA1.report =
      some { totalFiles := 1, successCount := 1, errorCount := 0 } := by decide
  exact ⟨hrep,
    finalize_report_counts_conserved cfgTwo ocOk [fileA] runA1 _ hreach hrep⟩

/-- C4 counterexample: with an invalid configuration (speed multiplier 0,
non-positive), `start()` still admits the item — the in-flight set is
non-empty and no batch-scoped rejection of any kind is recorded.  The claim
that "no item begins processing" is false: `start()` (line 85) performs no
configuration validation at all. -/
theorem start_admits_item_despite_invalid_config_cex :
    cfgNoSpeed.playbackRate ≤ 0 ∧
    Reach cfgNoSpeed ocOk [fileA] (schedulerPass (initState [fileA])) ∧
    (schedulerPass (initState [fileA])).active ≠ [] ∧
    (schedulerPass (initState [fileA])).report = none :=
  ⟨le_rfl, Reach.init, by decide, rfl⟩

/-- C4 amended: no ConfigError exists and `start()` performs no
configuration validation: for every Configuration — invalid ones included —
and every non-empty item list, `start()` admits items and begins work
(in-flight set non-empty, no report emitted); invalid values can only
surface later as item-scoped errors inside the pipeline. -/
theorem start_performs_no_config_validation (cfg : ConfigOptionsM)
    (oc : AudioFileM → OutcomeM) (files : List AudioFileM)
    (hne : files ≠ []) :
    Reach cfg oc files (schedulerPass (initState files)) ∧
    (schedulerPass (initState files)).active ≠ [] ∧
    (schedulerPass (initState files)).report = none := by
  refine ⟨Reach.init, ?_, rfl⟩
  unfold schedulerPass initState
  dsimp only
  exact schedulerLoop_active_nonempty files [] (Or.inr hne)

/-- Witness for the amended C4 at the invalid configuration `cfgNoSpeed`. -/
theorem start_performs_no_config_validation_witness :
    ([fileA] ≠ ([] : List AudioFileM)) ∧
    (Reach cfgNoSpeed ocOk [fileA] (schedulerPass (initState [fileA])) ∧
     (schedulerPass (initState [fileA])).active ≠ [] ∧
     (schedulerPass (initState [fileA])).report = none) :=
  ⟨by decide,
    start_performs_no_config_validation cfgNoSpeed ocOk [fileA] (by decide)⟩

/-- C10: for every batch with a non-empty item list, the completion observer
is invoked at most once (`finalizeCount ≤ 1`), only in a state where the
pending queue is empty, nothing is in flight, and every dequeued item has
its result or error recorded; and whenever nothing remains in flight it has
been invoked exactly once. -/
theorem onComplete_exactly_once (cfg : ConfigOptionsM)
    (oc : AudioFileM → OutcomeM) (files : List AudioFileM) (s : SchedState)
    (h : Reach cfg oc files s) (hne : files ≠ []) :
    s.finalizeCount ≤ 1 ∧
    (∀ r, s.report = some r → s.queue = [] ∧ s.active = [] ∧
      s.results.length + s.errors.length = files.length) ∧
    (s.active = [] → s.finalizeCount = 1) := by
  obtain ⟨-, h2, h3, h4, h5, -, h7⟩ := reach_schedInv h
  refine ⟨h3, ?_, ?_⟩
  · intro r hr
    obtain ⟨hq, ha, -, -, -, -⟩ := h5 r hr
    have hq0 : s.queue.length = 0 := by rw [hq]; rfl
    have ha0 : s.active.length = 0 := by rw [ha]; rfl
    exact ⟨hq, ha, by omega⟩
  · intro ha
    have hrep := h7 hne ha
    cases hrm : s.report with
    | none => exact absurd hrm hrep
    | some r =>
        have hne0 : s.finalizeCount ≠ 0 := by
          intro h0
          rw [h4.mpr h0] at hrm
          cases hrm
        omega

/-- Witness for C10 at the completed one-item batch. -/
theorem onComplete_exactly_once_witness :
    ([fileA] ≠ ([] : List AudioFileM)) ∧
    (runA1.finalizeCount ≤ 1 ∧
     (∀ r, runA1.report = some r → runA1.queue = [] ∧ runA1.active = [] ∧
       runA1.results.length + runA1.errors.length = [fileA].length) ∧
     (runA1.active = [] → runA1.finalizeCount = 1)) :=
  ⟨by decide,
    onComplete_exactly_once cfgTwo ocOk [fileA] runA1
      (Reach.step Reach.init (by decide)) (by decide)⟩

/-- C3: an exception in one item's pipeline never aborts the batch: in every
run in which all work has settled, the report is present and accounts for
every submitted item; and in the concrete three-item scenario where item B's
decode throws, the final report is `totalItems = 3, successCount = 2,
errorCount = 1`, B's name and message are in the error list, B's status is
`error`, and A and C reach `completed`. -/
theorem single_item_error_does_not_abort_batch :
    (∀ (cfg : ConfigOptionsM) (oc : AudioFileM → OutcomeM)
       (files : List AudioFileM) (s : SchedState),
       Reach cfg oc files s → files ≠ [] → s.active = [] →
       ∃ r, s.report = some r ∧
         r.successCount + r.errorCount = files.length ∧
         r.totalFiles = files.length) ∧
    (Reach cfgTwo ocBFails filesABC runABC ∧
     runABC.report =
       some { totalFiles := 3, successCount := 2, errorCount := 1 } ∧
     ("B.wav", "decode failed") ∈ runABC.errors ∧
     ("a", "completed") ∈ runABC.statuses ∧
     ("b", "error") ∈ runABC.statuses ∧
     ("c", "completed") ∈ runABC.statuses) := by
  constructor
  · intro cfg oc files s h hne ha
    obtain ⟨-, -, -, -, h5, -, h7⟩ := reach_schedInv h
    cases hrm : s.report with
    | none => exact absurd hrm (h7 hne ha)
    | some r =>
        obtain ⟨-, -, ht, -, -, hsum⟩ := h5 r hrm
        exact ⟨r, rfl, by omega, ht⟩
  · refine ⟨Reach.step (Reach.step (Reach.step Reach.init (by decide))
      (by decide)) (by decide), by decide, by decide, by decide, by decide,
      by decide⟩

/-- Witness for C3's universally quantified part at the completed three-item
run. -/
theorem single_item_error_does_not_abort_batch_witness :
    (filesABC ≠ [] ∧ runABC.active = []) ∧
    (∃ r, runABC.report = some r ∧
      r.successCount + r.errorCount = filesABC.length ∧
      r.totalFiles = filesABC.length) :=
  ⟨⟨by decide, by decide⟩,
    single_item_error_does_not_abort_batch.1 cfgTwo ocBFails filesABC runABC
      (Reach.step (Reach.step (Reach.step Reach.init (by decide))
        (by decide)) (by decide))
      (by decide) (by decide)⟩

/-!
Encoder worker pool (`WorkerPool`, src/utils/workerPool.ts).  Workers are
identified by numeric ids; task ids are strings.  `init()` (lines 64-71)
spawns workers and sends each the one-time `init` message — a worker is NOT
added to the free list at creation ("Don't add to pool yet, wait for
`ready`", line 69).  The `ready` reply handler (lines 75-77) pushes the
worker onto the free list and drains; `encode` (lines 102-108) registers the
task, enqueues its id and drains; the `done`/`error` handlers (lines 78-97)
return the worker to the free list, settle the task and drain.  Message
handlers run atomically on the single JS thread, in an arbitrary arrival
order, which the reachability relation below reflects.
-/

/-- Class `WorkerPool` state: spawned workers, workers that have completed the
readiness handshake, the free list (`pool`, popped at the end), the busy
workers paired with the task each one was handed, the FIFO task-id `queue`,
the keys of the `tasks` map, the history of every dispatch ever made, and
the `activeWorkers` counter. -/
structure PoolState where
  spawned : List Nat
  readySignaled : List Nat
  pool : List Nat
  busy : List (Nat × String)
  queue : List String
  pending : List String
  dispatched : List Nat
  activeWorkers : Nat
deriving DecidableEq

/-- Method `processQueue` (lines 110-129): nothing happens unless both a queued
task and a free worker exist; then pop the last free worker (`pool.pop()`),
shift the first task id (`queue.shift()`); if the task is still registered,
dispatch it to that worker, otherwise push the worker back. -/
def processQueue (s : PoolState) : PoolState :=
  if s.queue = [] ∨ s.pool = [] then s
  else
    let w := s.pool.getLastD 0
    let t := s.queue.headD ""
    if t ∈ s.pending then
      { s with pool := s.pool.dropLast, queue := s.queue.tail,
               busy := s.busy ++ [(w, t)],
               dispatched := s.dispatched ++ [w],
               activeWorkers := s.activeWorkers + 1 }
    else
      { s with pool := s.pool.dropLast ++ [w], queue := s.queue.tail }

/-- Reachable pool states: workers spawn (`init`, each at most once per id),
signal readiness (at most once — the worker script replies `ready` only to
the one `init` message), tasks are submitted (`encode`), and busy workers
complete (`done` or `error`, identical worker bookkeeping). -/
inductive PoolReach : PoolState → Prop
  | init : PoolReach
      { spawned := [], readySignaled := [], pool := [], busy := [],
        queue := [], pending := [], dispatched := [], activeWorkers := 0 }
  | spawn (w : Nat) {s : PoolState} : PoolReach s → w ∉ s.spawned →
      PoolReach { s with spawned := s.spawned ++ [w] }
  | ready (w : Nat) {s : PoolState} : PoolReach s → w ∈ s.spawned →
      w ∉ s.readySignaled →
      PoolReach (processQueue
        { s with readySignaled := s.readySignaled ++ [w],
                 pool := s.pool ++ [w] })
  | submit (t : String) {s : PoolState} : PoolReach s → t ∉ s.pending →
      PoolReach (processQueue
        { s with pending := s.pending ++ [t], queue := s.queue ++ [t] })
  | done (w : Nat) (t : String) {s : PoolState} : PoolReach s →
      (w, t) ∈ s.busy →
      PoolReach (processQueue
        { s with busy := s.busy.erase (w, t), pool := s.pool ++ [w],
                 pending := s.pending.erase t,
                 activeWorkers := s.activeWorkers - 1 })

/-- Invariant: the free list, the busy set and the dispatch history only
ever contain workers that completed the readiness handshake. -/
def PoolInv (s : PoolState) : Prop :=
  (∀ w ∈ s.pool, w ∈ s.readySignaled) ∧
  (∀ wt ∈ s.busy, wt.1 ∈ s.readySignaled) ∧
  (∀ w ∈ s.dispatched, w ∈ s.readySignaled)

lemma getLastD_mem (l : List Nat) (d : Nat) (h : l ≠ []) :
    l.getLastD d ∈ l := by
  rw [List.getLastD_eq_getLast?]
  cases hL : l.getLast? with
  | none => exact absurd (by simpa using hL) h
  | some a =>
      simp only [Option.getD_some]
      obtain ⟨hne, rfl⟩ := List.mem_getLast?_eq_getLast (by rw [hL]; rfl)
      exact List.getLast_mem hne

lemma processQueue_poolInv {s : PoolState} (h : PoolInv s) :
    PoolInv (processQueue s) := by
  obtain ⟨h1, h2, h3⟩ := h
  unfold processQueue
  by_cases h0 : s.queue = [] ∨ s.pool = []
  · rw [if_pos h0]
    exact ⟨h1, h2, h3⟩
  · rw [if_neg h0]
    push_neg at h0
    have hw : s.pool.getLastD 0 ∈ s.pool := getLastD_mem s.pool 0 h0.2
    by_cases ht : s.queue.headD "" ∈ s.pending
    · rw [if_pos ht]
      refine ⟨?_, ?_, ?_⟩
      · intro w hwp
        exact h1 w ((List.dropLast_sublist s.pool).mem hwp)
      · intro wt hwt
        rcases List.mem_append.mp hwt with hin | hnew
        · exact h2 wt hin
        · rw [List.mem_singleton.mp hnew]
          exact h1 _ hw
      · intro w hwd
        rcases List.mem_append.mp hwd with hin | hnew
        · exact h3 w hin
        · rw [List.mem_singleton.mp hnew]
          exact h1 _ hw
    · rw [if_neg ht]
      refine ⟨?_, h2, h3⟩
      intro w hwp
      rcases List.mem_append.mp hwp with hin | hnew
      · exact h1 w ((List.dropLast_sublist s.pool).mem hin)
      · rw [List.mem_singleton.mp hnew]
        exact h1 _ hw

lemma poolReach_inv {s : PoolState} (h : PoolReach s) : PoolInv s := by
  induction h with
  | init => exact ⟨by simp, by simp, by simp⟩
  | spawn w _ _ ih => exact ih
  | ready w _ _ _ ih =>
      obtain ⟨h1, h2, h3⟩ := ih
      apply processQueue_poolInv
      refine ⟨?_, ?_, ?_⟩
      · intro v hv
        rcases List.mem_append.mp hv with hin | hnew
        · exact List.mem_append.mpr (Or.inl (h1 v hin))
        · exact List.mem_append.mpr (Or.inr hnew)
      · intro wt hwt
        exact List.mem_append.mpr (Or.inl (h2 wt hwt))
      · intro v hv
        exact List.mem_append.mpr (Or.inl (h3 v hv))
  | submit t _ _ ih =>
      obtain ⟨h1, h2, h3⟩ := ih
      exact processQueue_poolInv ⟨h1, h2, h3⟩
  | done w t hbusy _ ih =>
      rename_i hb
      obtain ⟨h1, h2, h3⟩ := ih
      apply processQueue_poolInv
      refine ⟨?_, ?_, h3⟩
      · intro v hv
        rcases List.mem_append.mp hv with hin | hnew
        · exact h1 v hin
        · rw [List.mem_singleton.mp hnew]
          exact h2 (w, t) hb
      · intro wt hwt
        exact h2 wt (List.mem_of_mem_erase hwt)

/-- C9: in every reachable pool state, every worker ever handed an encode
task — and every worker currently busy or on the free list — previously
completed the one-time readiness handshake; tasks are only ever assigned by
pairing them with a worker popped from the free (ready) list. -/
theorem workerPool_dispatch_only_ready (s : PoolState) (h : PoolReach s) :
    (∀ w ∈ s.dispatched, w ∈ s.readySignaled) ∧
    (∀ wt ∈ s.busy, wt.1 ∈ s.readySignaled) ∧
    (∀ w ∈ s.pool, w ∈ s.readySignaled) := by
  obtain ⟨h1, h2, h3⟩ := poolReach_inv h
  exact ⟨h3, h2, h1⟩

/-- Witness for C9: spawn worker 0, let it signal ready, submit one task —
the task is dispatched to worker 0, which is in the ready set. -/
theorem workerPool_dispatch_only_ready_witness :
    ∃ s : PoolState, PoolReach s ∧ s.dispatched = [0] ∧
      ((∀ w ∈ s.dispatched, w ∈ s.readySignaled) ∧
       (∀ wt ∈ s.busy, wt.1 ∈ s.readySignaled) ∧
       (∀ w ∈ s.pool, w ∈ s.readySignaled)) := by
  have hreach := PoolReach.submit "t1"
    (PoolReach.ready 0 (PoolReach.spawn 0 PoolReach.init (by decide))
      (by decide) (by decide))
    (by decide)
  exact ⟨_, hreach, by decide, workerPool_dispatch_only_ready _ hreach⟩
